import Mathlib

/-!
Shallow embedding of the ABAC/CBAC decision core of the `docsecdemo` repository.

Embedded sources:
- `src/policy-engine.js` — resource-level allow/deny engine (`PolicyEngine.evaluate`,
  `PolicyEngine.checkAccess`, `PolicyEngine.evaluateConditions`, the operator table).
- the cell/field-level policy engine module (`evaluateCondition`,
  `evaluatePolicyConditions`, `evaluateFieldAccess`, `applyMask`, `filterSingleRow`,
  `getFieldPolicies`).

Modelling conventions:
- JavaScript objects used as string maps become association lists
  `List (String × α)` with JS property semantics (`objGet`, `objSet`).
- Attribute values, ids, effects, operators and actions are strings, as in the
  SQLite schema (all of these columns are TEXT).
- `new RegExp(pat, 'i')` is abstracted by a `RegexEngine`,
  a function `String → Option (String → Bool)`: `none` models a pattern on which
  the constructor raises `SyntaxError`, `some test` models a compiled matcher.
  All definitions are parametric in the engine.
- JavaScript exceptions are modelled with `Except Unit`: the resource-level
  engine has no try/catch around `new RegExp`, so its condition evaluation can
  raise; the field-level evaluator catches and returns `false`.
- SQL `ORDER BY` is modelled relationally: a query result is any permutation of
  the selected rows that is pairwise sorted by the `ORDER BY` key; the relative
  order of rows with equal keys is unspecified by SQL.
- `Number(x)` and `parseFloat(x)` are modelled over `ℚ` by decimal parsers
  (`jsNumber`, `jsParseFloat`); exponent and hexadecimal forms are omitted, which
  is irrelevant to every statement proved here.
-/

namespace DocSec

/-- A JS object used as a map from string keys to values of type `α`. -/
abbrev Obj (α : Type) := List (String × α)

/-- Attribute bag: attribute name ↦ string value. -/
abbrev AttrBag := Obj String

/-- JS property read `bag[k]`: first binding wins (`objSet` keeps keys unique). -/
def objGet {α : Type} : Obj α → String → Option α
  | [], _ => none
  | e :: rest, k => if e.1 = k then some e.2 else objGet rest k

/-- Does the object have the key? -/
def objHas {α : Type} : Obj α → String → Bool
  | [], _ => false
  | e :: rest, k => e.1 = k || objHas rest k

/-- JS property write `bag[k] = v`: replaces in place if the key exists, appends
otherwise (JS objects keep insertion order for string keys). -/
def objSet {α : Type} (bag : Obj α) (k : String) (v : α) : Obj α :=
  if objHas bag k then bag.map (fun e => if e.1 = k then (k, v) else e)
  else bag ++ [(k, v)]

/-- `bag[k] = v` for every pair in order (`forEach` of attribute rows). -/
def objSetMany {α : Type} (bag : Obj α) (kvs : List (String × α)) : Obj α :=
  kvs.foldl (fun b kv => objSet b kv.1 kv.2) bag

/-- Abstract JS regular-expression engine for `new RegExp(pat, 'i')`:
`none` = the constructor raises `SyntaxError` (invalid pattern),
`some test` = compiled case-insensitive matcher. -/
abbrev RegexEngine := String → Option (String → Bool)

/-- JS `a || b` on possibly-absent strings: the empty string is falsy. -/
def jsOr (a b : Option String) : Option String :=
  match a with
  | some s => if s = "" then b else some s
  | none => b

/-- JS `a || d` with a string default. -/
def jsOrDefault (a : Option String) (d : String) : String :=
  match a with
  | some s => if s = "" then d else s
  | none => d

/-- JS `toLowerCase` (ASCII range, via `Char.toLower`), computed through the
character list so that concrete instances reduce in the kernel. -/
def jsToLower (s : String) : String :=
  String.mk (s.toList.map Char.toLower)

/-- JS `trim`: strip whitespace from both ends. -/
def jsTrim (s : String) : String :=
  String.mk (((s.toList.dropWhile Char.isWhitespace).reverse.dropWhile
    Char.isWhitespace).reverse)

/-- Accumulator-based splitter behind `jsSplit`. -/
def splitCharAux (sep : Char) : List Char → List Char → List String
  | [], acc => [String.mk acc.reverse]
  | c :: rest, acc =>
    if c = sep then String.mk acc.reverse :: splitCharAux sep rest []
    else splitCharAux sep rest (c :: acc)

/-- JS `s.split(sep)` for a one-character separator (`''.split(',') = ['']`). -/
def jsSplit (s : String) (sep : Char) : List String :=
  splitCharAux sep s.toList []

/-- Digits to a natural number (`foldl` over the characters). -/
def digitsToNat (cs : List Char) : Nat :=
  cs.foldl (fun a c => a * 10 + (c.toNat - 48)) 0

/-- JS `Number(s)` restricted to plain decimal notation: trimmed, optionally
signed digits with an optional fractional part; the empty (trimmed) string is 0;
anything else is NaN (`none`). -/
def jsNumber (s : String) : Option ℚ :=
  let t := jsTrim s
  if t = "" then some 0
  else
    let (sign, body) :=
      match t.toList with
      | '-' :: rest => ((-1 : ℚ), rest)
      | '+' :: rest => ((1 : ℚ), rest)
      | cs => ((1 : ℚ), cs)
    let intPart := body.takeWhile Char.isDigit
    let afterInt := body.dropWhile Char.isDigit
    match afterInt with
    | [] => if intPart.isEmpty then none else some (sign * (digitsToNat intPart : ℚ))
    | '.' :: frac =>
      if frac.all Char.isDigit && !(intPart.isEmpty && frac.isEmpty) then
        some (sign * ((digitsToNat intPart : ℚ) +
          (digitsToNat frac : ℚ) / (10 : ℚ) ^ frac.length))
      else none
    | _ => none

/-- JS `parseFloat`: parses the longest decimal prefix, `none` when no digit is
consumed (NaN). -/
def jsParseFloat (s : String) : Option ℚ :=
  let cs := s.toList
  let (sign, rest) :=
    match cs with
    | '-' :: r => ((-1 : ℚ), r)
    | '+' :: r => ((1 : ℚ), r)
    | r => ((1 : ℚ), r)
  let intPart := rest.takeWhile Char.isDigit
  let afterInt := rest.dropWhile Char.isDigit
  let fracPart :=
    match afterInt with
    | '.' :: r => r.takeWhile Char.isDigit
    | _ => []
  if intPart.isEmpty && fracPart.isEmpty then none
  else some (sign * ((digitsToNat intPart : ℚ) +
    (digitsToNat fracPart : ℚ) / (10 : ℚ) ^ fracPart.length))

/-- JS `String.prototype.includes` on char lists. -/
def strIncludesAux (needle : List Char) : List Char → Bool
  | [] => needle.isEmpty
  | c :: rest => needle.isPrefixOf (c :: rest) || strIncludesAux needle rest

/-- JS `a.includes(b)`. -/
def jsIncludes (a b : String) : Bool :=
  strIncludesAux b.toList a.toList

/-- JS `s.slice(-n)` for `n ≤ s.length`: the last `n` characters. -/
def sliceLast (s : String) (n : Nat) : String :=
  s.drop (s.length - n)

/-! ## Resource-level engine (`src/policy-engine.js`) -/

/-- A row of `policy_conditions` (columns used by the engine). -/
structure Condition where
  subject_type : String
  attribute_name : String
  operator : String
  attribute_value : String
deriving DecidableEq

/-- A row of the `policies` table (columns used by the engine), together with
its `policy_conditions` rows. `created_at` is the insertion timestamp in
seconds (`DATETIME DEFAULT CURRENT_TIMESTAMP`, one-second resolution, so equal
values are possible). The condition rows are fetched by a query with no
`ORDER BY`; both engines read them through the same query on the same store, so
one shared list per policy is used. -/
structure Policy where
  id : String
  name : String
  effect : String
  priority : Int
  is_active : Bool
  created_at : Nat
  conditions : List Condition
deriving DecidableEq

/-- `PolicyEngine.operators[op](a, b)`. `matches` builds `new RegExp(b, 'i')`
with no try/catch, so an invalid pattern raises (`.error ()`); an operator name
not in the table yields `false` (`if (!operator) return false`). -/
def applyOperator (re : RegexEngine) (op a b : String) : Except Unit Bool :=
  if op = "equals" then .ok (jsToLower a == jsToLower b)
  else if op = "not_equals" then .ok (jsToLower a != jsToLower b)
  else if op = "contains" then .ok (jsIncludes (jsToLower a) (jsToLower b))
  else if op = "in" then
    .ok (((jsSplit b ',').map (fun s => jsToLower (jsTrim s))).contains (jsToLower a))
  else if op = "greater_than" then
    .ok (match jsNumber a, jsNumber b with
         | some x, some y => decide (y < x)
         | _, _ => false)
  else if op = "less_than" then
    .ok (match jsNumber a, jsNumber b with
         | some x, some y => decide (x < y)
         | _, _ => false)
  else if op = "matches" then
    match re b with
    | none => .error ()
    | some test => .ok (test a)
  else .ok false

/-- Resolution of the condition's actual value in `PolicyEngine.evaluateConditions`
(the `switch (condition.subject_type)`); an unknown subject type resolves to
nothing (the body returns `false`). -/
def resolveResourceActual (c : Condition) (userAttrs resourceAttrs envAttrs : AttrBag)
    (action : String) : Option String :=
  if c.subject_type = "user" then objGet userAttrs c.attribute_name
  else if c.subject_type = "resource" then objGet resourceAttrs c.attribute_name
  else if c.subject_type = "environment" then objGet envAttrs c.attribute_name
  else if c.subject_type = "action" then some action
  else none

/-- Body of the `every` callback in `PolicyEngine.evaluateConditions`: an absent
actual value (or unknown subject type) is `false`; otherwise the operator is
applied (which can raise for `matches`). -/
def evalResourceCondition (re : RegexEngine) (c : Condition)
    (userAttrs resourceAttrs envAttrs : AttrBag) (action : String) : Except Unit Bool :=
  match resolveResourceActual c userAttrs resourceAttrs envAttrs action with
  | none => .ok false
  | some a => applyOperator re c.operator a c.attribute_value

/-- `conditions.every(...)`: left-to-right, short-circuits on `false`,
propagates exceptions. -/
def everyCondition (re : RegexEngine) (userAttrs resourceAttrs envAttrs : AttrBag)
    (action : String) : List Condition → Except Unit Bool
  | [] => .ok true
  | c :: rest =>
    match evalResourceCondition re c userAttrs resourceAttrs envAttrs action with
    | .error e => .error e
    | .ok false => .ok false
    | .ok true => everyCondition re userAttrs resourceAttrs envAttrs action rest

/-- `PolicyEngine.evaluateConditions`: an empty condition list never matches
(`if (conditions.length === 0) return false`); otherwise all conditions must
hold (AND). -/
def evaluateConditions (re : RegexEngine) (conditions : List Condition)
    (userAttrs resourceAttrs envAttrs : AttrBag) (action : String) : Except Unit Bool :=
  if conditions.isEmpty then .ok false
  else everyCondition re userAttrs resourceAttrs envAttrs action conditions

/-- The decision object `{ allowed, reason, policyId }`. -/
structure Decision where
  allowed : Bool
  reason : String
  policyId : Option String
deriving DecidableEq

/-- A row of `access_audit_log` as written by `logAndReturn`. -/
structure AuditEntry where
  user_id : String
  resource_id : String
  action : String
  decision : String
  policy_id : Option String
  reason : String
deriving DecidableEq

/-- The audit row `logAndReturn` inserts for a decision. -/
def auditOf (userId resourceId action : String) (d : Decision) : AuditEntry :=
  ⟨userId, resourceId, action, if d.allowed then "allow" else "deny", d.policyId, d.reason⟩

/-- `logAndReturn`: the returned decision paired with the inserted audit row. -/
def logAndReturn (userId resourceId action : String) (d : Decision) :
    Decision × AuditEntry :=
  (d, auditOf userId resourceId action d)

/-- The policy loop of `PolicyEngine.evaluate` (lines 62–89): first matching
deny returns immediately; the first matching non-deny policy is recorded as
`allowingPolicy` and the scan continues; exceptions from condition evaluation
propagate. -/
def evaluateLoop (re : RegexEngine) (userAttrs resourceAttrs envAttrs : AttrBag)
    (action : String) : List Policy → Option Policy → Except Unit Decision
  | [], none => .ok ⟨false, "No applicable policy found - default deny", none⟩
  | [], some ap => .ok ⟨true, "Allowed by policy: " ++ ap.name, some ap.id⟩
  | p :: rest, acc =>
    match evaluateConditions re p.conditions userAttrs resourceAttrs envAttrs action with
    | .error e => .error e
    | .ok false => evaluateLoop re userAttrs resourceAttrs envAttrs action rest acc
    | .ok true =>
      if p.effect = "deny" then .ok ⟨false, "Denied by policy: " ++ p.name, some p.id⟩
      else
        match acc with
        | none => evaluateLoop re userAttrs resourceAttrs envAttrs action rest (some p)
        | some _ => evaluateLoop re userAttrs resourceAttrs envAttrs action rest acc

/-- `PolicyEngine.evaluate` after the store reads: `userAttrs`/`resourceAttrs`
are `none` when the user/resource row does not exist; `policies` is the result
of the `is_active` query (see `PriorityCreatedOrdering`). Every exit goes
through `logAndReturn`, so the decision is paired with the audit row. -/
def evaluate (re : RegexEngine) (userId resourceId action : String)
    (userAttrs resourceAttrs : Option AttrBag) (envAttrs : AttrBag)
    (policies : List Policy) : Except Unit (Decision × AuditEntry) :=
  match userAttrs with
  | none => .ok (logAndReturn userId resourceId action ⟨false, "User not found", none⟩)
  | some u =>
    match resourceAttrs with
    | none => .ok (logAndReturn userId resourceId action ⟨false, "Resource not found", none⟩)
    | some r =>
      (evaluateLoop re u r envAttrs action policies none).map
        (logAndReturn userId resourceId action)

/-- The result object of `PolicyEngine.checkAccess`: `{ allowed, reason, policy? }`
(the whole policy row, not just its id). -/
structure CheckResult where
  allowed : Bool
  reason : String
  policy : Option Policy
deriving DecidableEq

/-- The policy loop of `PolicyEngine.checkAccess` (lines 203–223); same shape as
`evaluateLoop` but different result object and default-deny wording. -/
def checkAccessLoop (re : RegexEngine) (userAttrs resourceAttrs envAttrs : AttrBag)
    (action : String) : List Policy → Option Policy → Except Unit CheckResult
  | [], none => .ok ⟨false, "No applicable policy - default deny", none⟩
  | [], some ap => .ok ⟨true, "Allowed by policy: " ++ ap.name, some ap⟩
  | p :: rest, acc =>
    match evaluateConditions re p.conditions userAttrs resourceAttrs envAttrs action with
    | .error e => .error e
    | .ok false => checkAccessLoop re userAttrs resourceAttrs envAttrs action rest acc
    | .ok true =>
      if p.effect = "deny" then .ok ⟨false, "Denied by policy: " ++ p.name, some p⟩
      else
        match acc with
        | none => checkAccessLoop re userAttrs resourceAttrs envAttrs action rest (some p)
        | some _ => checkAccessLoop re userAttrs resourceAttrs envAttrs action rest acc

/-- `PolicyEngine.checkAccess` after the store reads (no logging). -/
def checkAccess (re : RegexEngine) (userAttrs resourceAttrs : Option AttrBag)
    (envAttrs : AttrBag) (action : String) (policies : List Policy) :
    Except Unit CheckResult :=
  match userAttrs with
  | none => .ok ⟨false, "User not found", none⟩
  | some u =>
    match resourceAttrs with
    | none => .ok ⟨false, "Resource not found", none⟩
    | some r => checkAccessLoop re u r envAttrs action policies none

/-- The rows selected by both policy queries: `WHERE is_active = 1`. -/
def activeRows (table : List Policy) : List Policy :=
  table.filter (fun p => p.is_active)

/-- Sort key of `ORDER BY priority DESC, created_at ASC` (the query of
`PolicyEngine.evaluate`). -/
abbrev priorityCreatedLE (a b : Policy) : Prop :=
  b.priority < a.priority ∨ (b.priority = a.priority ∧ a.created_at ≤ b.created_at)

/-- Result of `SELECT ... WHERE is_active = 1 ORDER BY priority DESC, created_at ASC`:
some permutation of the active rows pairwise sorted by the key; rows equal on
both columns have an unspecified relative order. -/
abbrev PriorityCreatedOrdering (rows out : List Policy) : Prop :=
  out.Perm rows ∧ out.Pairwise priorityCreatedLE

/-- Result of `SELECT ... WHERE is_active = 1 ORDER BY priority DESC` (the query
of `PolicyEngine.checkAccess`): some permutation of the active rows pairwise
sorted by priority descending; equal-priority rows have an unspecified relative
order. -/
abbrev PriorityDescOrdering (rows out : List Policy) : Prop :=
  out.Perm rows ∧ out.Pairwise (fun a b => b.priority ≤ a.priority)

/-! ## Field/cell-level engine (cell policy engine module) -/

/-- A row of `field_policy_conditions` as shaped by `getFieldPolicies`
(`json_object('subject_type', …, 'attribute_name', …, 'operator', …, 'value', fpc.attribute_value)`). -/
structure FieldCondition where
  subject_type : String
  attribute_name : String
  operator : String
  value : String
deriving DecidableEq

/-- A row of `field_policies` (columns used by the engine) with its parsed
condition list attached by `getFieldPolicies`. Nullable TEXT columns are
`Option String`. -/
structure FieldPolicy where
  id : String
  name : String
  effect : String
  priority : Int
  is_active : Bool
  field_pattern : Option String
  resource_type : Option String
  mask_value : Option String
  created_at : Nat
  conditions : List FieldCondition
deriving DecidableEq

/-- The evaluation context built by `evaluateFieldAccess`:
`{ user, resource, field, action, environment }`. -/
structure FieldContext where
  user : AttrBag
  resource : AttrBag
  field : AttrBag
  action : String
  environment : AttrBag
deriving DecidableEq

/-- Resolution of the actual value in the field-level `evaluateCondition`
(`switch (condition.subject_type)`, which also knows `field`). -/
def resolveFieldActual (c : FieldCondition) (ctx : FieldContext) : Option String :=
  if c.subject_type = "user" then objGet ctx.user c.attribute_name
  else if c.subject_type = "resource" then objGet ctx.resource c.attribute_name
  else if c.subject_type = "field" then objGet ctx.field c.attribute_name
  else if c.subject_type = "environment" then objGet ctx.environment c.attribute_name
  else if c.subject_type = "action" then some ctx.action
  else none

/-- The field-level `evaluateCondition`: absent actual value (or unknown subject
type) is `false`; `matches` wraps the regular expression in try/catch, so an
invalid pattern yields `false` rather than raising; an unknown operator is
`false`. -/
def evaluateCondition (re : RegexEngine) (c : FieldCondition) (ctx : FieldContext) : Bool :=
  match resolveFieldActual c ctx with
  | none => false
  | some a =>
    if c.operator = "equals" then jsToLower a == jsToLower c.value
    else if c.operator = "not_equals" then jsToLower a != jsToLower c.value
    else if c.operator = "contains" then jsIncludes (jsToLower a) (jsToLower c.value)
    else if c.operator = "in" then
      ((jsSplit c.value ',').map (fun s => jsToLower (jsTrim s))).contains (jsToLower a)
    else if c.operator = "greater_than" then
      match jsNumber a, jsNumber c.value with
      | some x, some y => decide (y < x)
      | _, _ => false
    else if c.operator = "less_than" then
      match jsNumber a, jsNumber c.value with
      | some x, some y => decide (x < y)
      | _, _ => false
    else if c.operator = "matches" then
      match re c.value with
      | none => false
      | some test => test a
    else false

/-- `context.field.name || context.field.field_name` as tested by the
`field_pattern` check; `String(undefined)` is `"undefined"` when both are
absent (the context built by `evaluateFieldAccess` always sets `name`). -/
def fieldNameOf (ctx : FieldContext) : String :=
  (jsOr (objGet ctx.field "name") (objGet ctx.field "field_name")).getD "undefined"

/-- The field-level `evaluatePolicyConditions`: an empty (or missing) condition
list returns `true` immediately — before the `field_pattern` test; otherwise the
field pattern (when present) must match the field name (an invalid pattern is
`false`) and every condition must hold (AND). -/
def evaluatePolicyConditions (re : RegexEngine) (p : FieldPolicy) (ctx : FieldContext) : Bool :=
  if p.conditions.isEmpty then true
  else
    (match p.field_pattern with
     | none => true
     | some pat =>
       match re pat with
       | none => false
       | some test => test (fieldNameOf ctx)) &&
    p.conditions.all (fun c => evaluateCondition re c ctx)

/-- The result object of `evaluateFieldAccess`:
`{ effect, policy?, maskValue?, reason }` (the cited policy kept by id). -/
structure FieldResult where
  effect : String
  policyId : Option String
  maskValue : Option String
  reason : String
deriving DecidableEq

/-- The accumulator's initial value:
`{ effect: DENY, reason: 'No matching allow policy' }`. -/
def initialFieldResult : FieldResult :=
  ⟨"deny", none, none, "No matching allow policy"⟩

/-- The policy loop of `evaluateFieldAccess` (lines 256–294): matching deny and
redact return immediately; a matching mask overwrites the accumulator
unconditionally and the scan continues; a matching allow overwrites it only
when the accumulated effect is not `mask`. -/
def fieldLoop (re : RegexEngine) (ctx : FieldContext) :
    List FieldPolicy → FieldResult → FieldResult
  | [], result => result
  | p :: rest, result =>
    if evaluatePolicyConditions re p ctx then
      if p.effect = "deny" then
        ⟨"deny", some p.id, none, "Denied by policy: " ++ p.name⟩
      else if p.effect = "redact" then
        ⟨"redact", some p.id, some (jsOrDefault p.mask_value "***REDACTED***"),
          "Redacted by policy: " ++ p.name⟩
      else
        fieldLoop re ctx rest
          (if p.effect = "mask" then
            ⟨"mask", some p.id, p.mask_value, "Masked by policy: " ++ p.name⟩
          else if p.effect = "allow" && result.effect != "mask" then
            ⟨"allow", some p.id, none, "Allowed by policy: " ++ p.name⟩
          else result)
    else fieldLoop re ctx rest result

/-- A row of `resources` (columns read by `evaluateFieldAccess`); `rtype` embeds
the `type` column. -/
structure ResourceRow where
  id : String
  name : String
  rtype : String
deriving DecidableEq

/-- A row of `resource_fields` (columns used by the field engine). -/
structure FieldRow where
  id : String
  field_name : String
  field_type : String
deriving DecidableEq

/-- Rows selected by `getFieldPolicies(resourceType)`:
`is_active = 1 AND (resource_type IS NULL OR resource_type = ?)`. -/
def fieldPolicyRows (table : List FieldPolicy) (resourceType : String) : List FieldPolicy :=
  table.filter (fun p =>
    p.is_active && (p.resource_type == none || p.resource_type == some resourceType))

/-- Result of the `getFieldPolicies` query (`ORDER BY fp.priority DESC`, no
tiebreaker): some permutation of the selected rows pairwise sorted by priority
descending. -/
abbrev FieldPolicyOrdering (table : List FieldPolicy) (resourceType : String)
    (out : List FieldPolicy) : Prop :=
  out.Perm (fieldPolicyRows table resourceType) ∧
  out.Pairwise (fun a b => b.priority ≤ a.priority)

/-- The context `evaluateFieldAccess` builds from the store rows: each bag
starts from the built-in keys (`{type, name}` resp. `{name, type}`) and the
attribute rows overwrite them in order. -/
def contextOf (userAttrRows : AttrBag) (r : ResourceRow) (f : FieldRow)
    (resAttrRows fieldAttrRows environment : AttrBag) (action : String) : FieldContext :=
  ⟨objSetMany [] userAttrRows,
   objSetMany [("type", r.rtype), ("name", r.name)] resAttrRows,
   objSetMany [("name", f.field_name), ("type", f.field_type)] fieldAttrRows,
   action, environment⟩

/-- `evaluateFieldAccess` after the store reads: `resource`/`field` are `none`
when the row does not exist; `policies` is the `getFieldPolicies` result for
`resource.type`. -/
def evaluateFieldAccess (re : RegexEngine) (userAttrRows : AttrBag)
    (resource : Option ResourceRow) (field : Option FieldRow)
    (resAttrRows fieldAttrRows : AttrBag) (environment : AttrBag)
    (action : String) (policies : List FieldPolicy) : FieldResult :=
  match resource with
  | none => ⟨"deny", none, none, "Resource not found"⟩
  | some r =>
    match field with
    | none => ⟨"deny", none, none, "Field not found"⟩
    | some f =>
      fieldLoop re (contextOf userAttrRows r f resAttrRows fieldAttrRows environment action)
        policies initialFieldResult

/-! ## Masking strategies (`applyMask`) and row filtering (`filterSingleRow`) -/

/-- A JS value stored in a data row or produced by the filter: a cell value
(string or SQL NULL) or the `_accessControl` metadata object the filter
attaches. `String(v)` on the object is `"[object Object]"`. -/
inductive CellValue where
  | null : CellValue
  | str : String → CellValue
  | accessMap : Obj String → CellValue
deriving DecidableEq

/-- JS `String(v)` for the values above (`null` never reaches it: `applyMask`
returns early). -/
def cellToString : CellValue → String
  | .null => "null"
  | .str s => s
  | .accessMap _ => "[object Object]"

/-- The type-driven branch of `applyMask` (the `switch (fieldType)`). -/
def autoMask (strValue fieldType : String) : String :=
  if fieldType = "ssn" then
    if strValue.length ≥ 4 then "***-**-" ++ sliceLast strValue 4 else "***-**-****"
  else if fieldType = "credit_card" then
    if strValue.length ≥ 4 then "****-****-****-" ++ sliceLast strValue 4
    else "****-****-****-****"
  else if fieldType = "phone" then
    if strValue.length ≥ 4 then "(***) ***-" ++ sliceLast strValue 4 else "(***) ***-****"
  else if fieldType = "email" then
    match strValue.toList.findIdx? (fun c => c = '@') with
    | some i => if i > 0 then "****" ++ strValue.drop i else "****@****.***"
    | none => "****@****.***"
  else if fieldType = "salary" || fieldType = "currency" then
    match jsParseFloat ((strValue.toList.filter
        (fun c => c.isDigit || c = '.' || c = '-')).asString) with
    | none => "$***,***"
    | some n =>
      "$***,*** (" ++
        (if n < 50000 then "<50k" else if n < 100000 then "50k-100k" else ">100k") ++ ")"
  else
    if strValue.length ≤ 2 then "***"
    else strValue.take 1 ++
      String.mk (List.replicate (min (strValue.length - 2) 5) '*') ++
      sliceLast strValue 1

/-- `applyMask(value, fieldType, maskPattern)`: `null`/`undefined` is returned
unchanged; a truthy custom pattern wins; otherwise the field type drives the
mask. -/
def applyMask (value : CellValue) (fieldType : String) (maskPattern : Option String) :
    CellValue :=
  match value with
  | .null => .null
  | v =>
    match maskPattern with
    | some mp => if mp = "" then .str (autoMask (cellToString v) fieldType) else .str mp
    | none => .str (autoMask (cellToString v) fieldType)

/-- The per-entry loop of `filterSingleRow`. `fieldAccess` stands for
`await evaluateFieldAccess(userId, resourceId, field.id, action, environment)`
as a function of the field id; `fieldMap` maps schema field names to their
`resource_fields` rows. A key absent from `fieldMap` is copied as-is and gets no
access-log entry; a known key is logged and then allowed, masked, redacted, or
(for `deny` and any unknown effect) dropped. -/
def filterRowGo (fieldAccess : String → FieldResult) (fieldMap : Obj FieldRow) :
    List (String × CellValue) → Obj CellValue → Obj String →
    Obj CellValue × Obj String
  | [], filtered, accessLog => (filtered, accessLog)
  | (fieldName, value) :: rest, filtered, accessLog =>
    match objGet fieldMap fieldName with
    | none => filterRowGo fieldAccess fieldMap rest (objSet filtered fieldName value) accessLog
    | some field =>
      let access := fieldAccess field.id
      let accessLog' := objSet accessLog fieldName access.effect
      let filtered' :=
        if access.effect = "allow" then objSet filtered fieldName value
        else if access.effect = "mask" then
          objSet filtered fieldName (applyMask value field.field_type access.maskValue)
        else if access.effect = "redact" then
          objSet filtered fieldName (.str (jsOrDefault access.maskValue "***REDACTED***"))
        else filtered
      filterRowGo fieldAccess fieldMap rest filtered' accessLog'

/-- `filterSingleRow`: filters each entry of the row object, then stores the
access log under the `_accessControl` key of the filtered object
(`filtered._accessControl = accessLog`) and returns it; the access-log object
itself is exposed as the second component. -/
def filterSingleRow (fieldAccess : String → FieldResult) (fieldMap : Obj FieldRow)
    (row : List (String × CellValue)) : Obj CellValue × Obj String :=
  let fl := filterRowGo fieldAccess fieldMap row [] []
  (objSet fl.1 "_accessControl" (.accessMap fl.2), fl.2)

/-! ## Projections and concrete fixtures -/

instance {ε α : Type} [DecidableEq ε] [DecidableEq α] : DecidableEq (Except ε α) :=
  fun a b =>
    match a, b with
    | .error e, .error f =>
      if h : e = f then isTrue (by rw [h]) else isFalse (fun hc => h (Except.error.inj hc))
    | .ok x, .ok y =>
      if h : x = y then isTrue (by rw [h]) else isFalse (fun hc => h (Except.ok.inj hc))
    | .error _, .ok _ => isFalse (fun hc => Except.noConfusion hc)
    | .ok _, .error _ => isFalse (fun hc => Except.noConfusion hc)

/-- Projection of a `Decision` to (allowed flag, cited policy id). -/
def decisionSummary (d : Decision) : Bool × Option String :=
  (d.allowed, d.policyId)

/-- Projection of a `CheckResult` to (allowed flag, cited policy id). -/
def checkSummary (c : CheckResult) : Bool × Option String :=
  (c.allowed, c.policy.map (fun p => p.id))

/-- A regex engine with no pattern used by the fixture conditions below (the
fixtures only use the `equals` operator, so the engine is irrelevant there). -/
def re0 : RegexEngine := fun _ => none

/-- A regex engine which rejects the pattern `"["` — as JS does:
`new RegExp("[", "i")` raises `SyntaxError` (unterminated character class). -/
def reBad : RegexEngine :=
  fun pat => if pat = "[" then none else some (fun _ => false)

/-- A condition satisfied by every evaluation with action `read`. -/
def cTrue : Condition := ⟨"action", "any", "equals", "read"⟩

/-- Resource-level `matches` condition with the invalid pattern `"["`. -/
def condBadResource : Condition := ⟨"action", "any", "matches", "["⟩

/-- Field-level `matches` condition with the invalid pattern `"["`. -/
def condBadField : FieldCondition := ⟨"action", "any", "matches", "["⟩

/-- Resource-level fixture policies. -/
def pAllow : Policy := ⟨"p-allow", "Allow read", "allow", 10, true, 2, [cTrue]⟩

def pDeny : Policy := ⟨"p-deny", "Deny read", "deny", 50, true, 1, [cTrue]⟩

/-- An active policy whose `matches` condition has the invalid pattern `"["`
and whose actual value resolves (`subject_type = action`): scanning it makes
the resource engine raise. Priority 90 places it before the fixtures below. -/
def pThrow : Policy := ⟨"p-throw", "Throw", "allow", 90, true, 0, [condBadResource]⟩

/-- A raising policy tied with `pDeny` on both priority (50) and `created_at`
(1), so the two policy queries may order the pair differently. -/
def pThrowTie : Policy := ⟨"p-tt", "ThrowTie", "allow", 50, true, 1, [condBadResource]⟩

/-- Two allow policies with equal priority and equal `created_at`. -/
def Q1 : Policy := ⟨"q1", "A", "allow", 5, true, 100, [cTrue]⟩

def Q2 : Policy := ⟨"q2", "B", "allow", 5, true, 100, [cTrue]⟩

/-- Two condition-free mask policies with different priorities and mask texts. -/
def M1 : FieldPolicy := ⟨"fp-m1", "M1", "mask", 50, true, none, none, some "MASK-A", 0, []⟩

def M2 : FieldPolicy := ⟨"fp-m2", "M2", "mask", 10, true, none, none, some "MASK-B", 0, []⟩

/-- A condition-free allow field policy. -/
def A1 : FieldPolicy := ⟨"fp-a1", "A1", "allow", 5, true, none, none, none, 0, []⟩

/-- Condition-free fixture rows. -/
def res1 : ResourceRow := ⟨"r1", "Employees", "document"⟩

def fld1 : FieldRow := ⟨"f1", "ssn", "ssn"⟩

/-- An empty evaluation context. -/
def ctx0 : FieldContext := ⟨[], [], [], "read", []⟩

/-- Resource-level fixture policies with no conditions. -/
def pEmpty : Policy := ⟨"p0", "Empty", "allow", 0, true, 0, []⟩

def fpEmpty : FieldPolicy := ⟨"fp0", "EmptyF", "allow", 0, true, none, none, none, 0, []⟩

/-! ## General helper lemmas -/

/-- Inversion for `Except.map` landing in `ok`. -/
theorem map_ok_inv {α β : Type} {e : Except Unit α} {f : α → β} {y : β}
    (h : e.map f = .ok y) : ∃ x, e = .ok x ∧ f x = y := by
  cases e with
  | error _ => simp [Except.map] at h
  | ok x => exact ⟨x, rfl, by simpa [Except.map] using h⟩

/-- Inversion for `Except.map` landing in `error`. -/
theorem map_error_inv {α β : Type} {e : Except Unit α} {f : α → β} {x : Unit}
    (h : e.map f = .error x) : e = .error x := by
  cases e with
  | error y => cases y; cases x; rfl
  | ok a => simp [Except.map] at h

/-- Bounded existentials transfer along permutations. -/
theorem bex_congr_of_perm {α : Type} {l₁ l₂ : List α} (h : l₁.Perm l₂) (P : α → Prop) :
    (∃ x ∈ l₁, P x) ↔ (∃ x ∈ l₂, P x) :=
  ⟨fun ⟨x, hx, hP⟩ => ⟨x, h.mem_iff.mp hx, hP⟩,
   fun ⟨x, hx, hP⟩ => ⟨x, h.mem_iff.mpr hx, hP⟩⟩

/-- Two lists that are permutations of each other and pairwise sorted by a
relation that is antisymmetric on the elements of the first are equal. -/
theorem sorted_perm_eq {α : Type} {r : α → α → Prop} :
    ∀ {l₁ l₂ : List α}, l₁.Perm l₂ → l₁.Pairwise r → l₂.Pairwise r →
      (∀ a ∈ l₁, ∀ b ∈ l₁, r a b → r b a → a = b) → l₁ = l₂ := by
  intro l₁
  induction l₁ with
  | nil => intro l₂ hp _ _ _; exact (hp.symm.eq_nil).symm
  | cons a t₁ ih =>
    intro l₂ hp hs₁ hs₂ hanti
    cases l₂ with
    | nil => exact absurd hp.symm (by simp [List.Perm.eq_nil, List.Perm])
    | cons b t₂ =>
      by_cases hab : a = b
      · subst hab
        have ht : t₁.Perm t₂ := hp.cons_inv
        have := ih ht (List.Pairwise.sublist (List.sublist_cons_self a t₁) hs₁)
          (List.Pairwise.sublist (List.sublist_cons_self a t₂) hs₂)
          (fun x hx y hy hxy hyx =>
            hanti x (List.mem_cons_of_mem a hx) y (List.mem_cons_of_mem a hy) hxy hyx)
        rw [this]
      · exfalso
        have hamem : a ∈ b :: t₂ := hp.subset (List.mem_cons_self a t₁)
        have hat₂ : a ∈ t₂ := by
          cases List.mem_cons.mp hamem with
          | inl h => exact absurd h hab
          | inr h => exact h
        have hbmem : b ∈ a :: t₁ := hp.symm.subset (List.mem_cons_self b t₂)
        have hbt₁ : b ∈ t₁ := by
          cases List.mem_cons.mp hbmem with
          | inl h => exact absurd h.symm hab
          | inr h => exact h
        have hrab : r a b := (List.pairwise_cons.mp hs₁).1 b hbt₁
        have hrba : r b a := (List.pairwise_cons.mp hs₂).1 a hat₂
        exact hab (hanti a (List.mem_cons_self a t₁) b (List.mem_cons_of_mem a hbt₁) hrab hrba)

/-! ## Lemmas about the JS object model -/

theorem objGet_eq_none_of_not_mem {α : Type} {bag : Obj α} {k : String}
    (h : k ∉ bag.map Prod.fst) : objGet bag k = none := by
  induction bag with
  | nil => rfl
  | cons e rest ih =>
    have hne : e.1 ≠ k := by
      intro hc; exact h (by simp [hc])
    simp only [objGet, if_neg hne]
    exact ih (fun hc => h (List.mem_cons_of_mem _ hc))

theorem objGet_map_set_of_has {α : Type} {bag : Obj α} {k : String} {v : α}
    (h : objHas bag k = true) :
    objGet (bag.map (fun e => if e.1 = k then (k, v) else e)) k = some v := by
  induction bag with
  | nil => simp [objHas] at h
  | cons e rest ih =>
    by_cases he : e.1 = k
    · simp [objGet, he]
    · have : objHas rest k = true := by
        simpa [objHas, he] using h
      simpa [objGet, if_neg he] using ih this

theorem objGet_append_self_of_not_has {α : Type} {bag : Obj α} {k : String} {v : α}
    (h : objHas bag k = false) :
    objGet (bag ++ [(k, v)]) k = some v := by
  induction bag with
  | nil => simp [objGet]
  | cons e rest ih =>
    have he : e.1 ≠ k := by
      intro hc
      simp [objHas, hc] at h
    have : objHas rest k = false := by
      simpa [objHas, he] using h
    simp only [List.cons_append, objGet, if_neg he]
    exact ih this

/-- Writing a key then reading it back gives the written value. -/
theorem objGet_objSet_self {α : Type} (bag : Obj α) (k : String) (v : α) :
    objGet (objSet bag k v) k = some v := by
  unfold objSet
  by_cases h : objHas bag k
  · rw [if_pos h]; exact objGet_map_set_of_has h
  · rw [if_neg h]; exact objGet_append_self_of_not_has (by simpa using h)

theorem objGet_map_set_ne {α : Type} {k k' : String} {v : α} (h : k' ≠ k) :
    ∀ bag : Obj α,
      objGet (bag.map (fun e => if e.1 = k then (k, v) else e)) k' = objGet bag k'
  | [] => rfl
  | e :: rest => by
    by_cases he : e.1 = k
    · have hne : k ≠ k' := fun hc => h hc.symm
      have hne' : e.1 ≠ k' := he ▸ hne
      simp only [List.map_cons, if_pos he, objGet, if_neg hne, if_neg hne']
      exact objGet_map_set_ne h rest
    · simp only [List.map_cons, if_neg he, objGet]
      by_cases he' : e.1 = k'
      · rw [if_pos he', if_pos he']
      · rw [if_neg he', if_neg he']
        exact objGet_map_set_ne h rest

theorem objGet_append_ne {α : Type} {k k' : String} {v : α} (h : k' ≠ k) :
    ∀ bag : Obj α, objGet (bag ++ [(k, v)]) k' = objGet bag k'
  | [] => by simp [objGet, if_neg (fun hc : k = k' => h hc.symm)]
  | e :: rest => by
    simp only [List.cons_append, objGet]
    by_cases he' : e.1 = k'
    · rw [if_pos he', if_pos he']
    · rw [if_neg he', if_neg he']
      exact objGet_append_ne h rest

/-- Writing one key leaves reads of other keys unchanged. -/
theorem objGet_objSet_ne {α : Type} (bag : Obj α) {k k' : String} (v : α)
    (h : k' ≠ k) : objGet (objSet bag k v) k' = objGet bag k' := by
  unfold objSet
  by_cases hh : objHas bag k
  · rw [if_pos hh]; exact objGet_map_set_ne h bag
  · rw [if_neg hh]; exact objGet_append_ne h bag

/-! ## Lemmas about the resource-level loops -/

/-- The policy matches: all its conditions evaluate to true. -/
abbrev MatchesPolicy (re : RegexEngine) (u r env : AttrBag) (act : String) (p : Policy) : Prop :=
  evaluateConditions re p.conditions u r env act = .ok true

/-- Evaluating the policy's conditions does not raise. -/
abbrev NoThrow (re : RegexEngine) (u r env : AttrBag) (act : String) (p : Policy) : Prop :=
  evaluateConditions re p.conditions u r env act ≠ .error ()

/-- If some policy in the (remaining) list is a matching deny and no condition
evaluation raises, the `evaluate` loop terminates normally with a denial,
whatever allow candidate has been recorded. -/
theorem evaluateLoop_denied (re : RegexEngine) (u r env : AttrBag) (act : String) :
    ∀ (l : List Policy) (acc : Option Policy),
      (∀ p ∈ l, NoThrow re u r env act p) →
      (∃ p ∈ l, p.effect = "deny" ∧ MatchesPolicy re u r env act p) →
      ∃ d, evaluateLoop re u r env act l acc = .ok d ∧ d.allowed = false := by
  intro l
  induction l with
  | nil => intro acc _ hdeny; simp at hdeny
  | cons p rest ih =>
    intro acc hok hdeny
    have hokrest : ∀ q ∈ rest, NoThrow re u r env act q :=
      fun q hq => hok q (List.mem_cons_of_mem p hq)
    cases hc : evaluateConditions re p.conditions u r env act with
    | error e =>
      exact absurd (by rw [hc]) (hok p (List.mem_cons_self p rest))
    | ok b =>
      cases b with
      | false =>
        have hrest : ∃ q ∈ rest, q.effect = "deny" ∧ MatchesPolicy re u r env act q := by
          obtain ⟨q, hq, hqd, hqm⟩ := hdeny
          cases List.mem_cons.mp hq with
          | inl h =>
            subst h
            have hqm' : evaluateConditions re q.conditions u r env act = .ok true := hqm
            rw [hc] at hqm'
            simp at hqm'
          | inr h => exact ⟨q, h, hqd, hqm⟩
        obtain ⟨d, hd, hda⟩ := ih acc hokrest hrest
        exact ⟨d, by simp only [evaluateLoop, hc]; exact hd, hda⟩
      | true =>
        by_cases hp : p.effect = "deny"
        · refine ⟨⟨false, "Denied by policy: " ++ p.name, some p.id⟩, ?_, rfl⟩
          simp only [evaluateLoop, hc, if_pos hp]
        · have hrest : ∃ q ∈ rest, q.effect = "deny" ∧ MatchesPolicy re u r env act q := by
            obtain ⟨q, hq, hqd, hqm⟩ := hdeny
            cases List.mem_cons.mp hq with
            | inl h => subst h; exact absurd hqd hp
            | inr h => exact ⟨q, h, hqd, hqm⟩
          cases acc with
          | none =>
            obtain ⟨d, hd, hda⟩ := ih (some p) hokrest hrest
            exact ⟨d, by simp only [evaluateLoop, hc, if_neg hp]; exact hd, hda⟩
          | some ap =>
            obtain ⟨d, hd, hda⟩ := ih (some ap) hokrest hrest
            exact ⟨d, by simp only [evaluateLoop, hc, if_neg hp]; exact hd, hda⟩

/-- When no policy in the list matches, the `evaluate` loop falls through to the
default denial. -/
theorem evaluateLoop_unmatched (re : RegexEngine) (u r env : AttrBag) (act : String) :
    ∀ l : List Policy,
      (∀ p ∈ l, evaluateConditions re p.conditions u r env act = .ok false) →
      evaluateLoop re u r env act l none =
        .ok ⟨false, "No applicable policy found - default deny", none⟩ := by
  intro l
  induction l with
  | nil => intro _; rfl
  | cons p rest ih =>
    intro h
    have hp := h p (List.mem_cons_self p rest)
    simp only [evaluateLoop, hp]
    exact ih (fun q hq => h q (List.mem_cons_of_mem p hq))

/-- When no policy in the list matches, the `checkAccess` loop falls through to
its default denial (note the different wording). -/
theorem checkAccessLoop_unmatched (re : RegexEngine) (u r env : AttrBag) (act : String) :
    ∀ l : List Policy,
      (∀ p ∈ l, evaluateConditions re p.conditions u r env act = .ok false) →
      checkAccessLoop re u r env act l none =
        .ok ⟨false, "No applicable policy - default deny", none⟩ := by
  intro l
  induction l with
  | nil => intro _; rfl
  | cons p rest ih =>
    intro h
    have hp := h p (List.mem_cons_self p rest)
    simp only [checkAccessLoop, hp]
    exact ih (fun q hq => h q (List.mem_cons_of_mem p hq))

/-- The two near-duplicate loops of `evaluate` and `checkAccess` agree on the
allowed flag and the cited policy on every input (they differ only in the shape
of the result object and in the default-deny reason string). -/
theorem loops_agree (re : RegexEngine) (u r env : AttrBag) (act : String) :
    ∀ (l : List Policy) (acc : Option Policy),
      (evaluateLoop re u r env act l acc).map decisionSummary =
      (checkAccessLoop re u r env act l acc).map checkSummary := by
  intro l
  induction l with
  | nil =>
    intro acc
    cases acc with
    | none => rfl
    | some ap => rfl
  | cons p rest ih =>
    intro acc
    cases hc : evaluateConditions re p.conditions u r env act with
    | error e => simp only [evaluateLoop, checkAccessLoop, hc, Except.map]
    | ok b =>
      cases b with
      | false => simp only [evaluateLoop, checkAccessLoop, hc]; exact ih acc
      | true =>
        by_cases hp : p.effect = "deny"
        · simp only [evaluateLoop, checkAccessLoop, hc, if_pos hp, Except.map,
            decisionSummary, checkSummary, Option.map]
        · cases acc with
          | none =>
            simp only [evaluateLoop, checkAccessLoop, hc, if_neg hp]
            exact ih (some p)
          | some ap =>
            simp only [evaluateLoop, checkAccessLoop, hc, if_neg hp]
            exact ih (some ap)

/-- Characterization of the allowed flag produced by the `evaluate` loop under
exception-free condition evaluation: the run terminates normally, and it allows
exactly when no matching deny exists in the list and either an allow candidate
was already recorded or some matching non-deny policy exists in the list. This
makes the flag depend only on the *membership* of the policy list, not on its
order. -/
theorem evaluateLoop_flag (re : RegexEngine) (u r env : AttrBag) (act : String) :
    ∀ (l : List Policy) (acc : Option Policy),
      (∀ p ∈ l, NoThrow re u r env act p) →
      ∃ d, evaluateLoop re u r env act l acc = .ok d ∧
        (d.allowed = true ↔
          (¬∃ p ∈ l, p.effect = "deny" ∧ MatchesPolicy re u r env act p) ∧
          (acc ≠ none ∨ ∃ p ∈ l, p.effect ≠ "deny" ∧ MatchesPolicy re u r env act p)) := by
  intro l
  induction l with
  | nil =>
    intro acc _
    cases acc with
    | none => exact ⟨_, rfl, by simp⟩
    | some ap => exact ⟨_, rfl, by simp⟩
  | cons p rest ih =>
    intro acc hok
    have hokrest : ∀ q ∈ rest, NoThrow re u r env act q :=
      fun q hq => hok q (List.mem_cons_of_mem p hq)
    cases hc : evaluateConditions re p.conditions u r env act with
    | error e => exact absurd (by rw [hc]) (hok p (List.mem_cons_self p rest))
    | ok b =>
      cases b with
      | false =>
        obtain ⟨d, hd, hiff⟩ := ih acc hokrest
        refine ⟨d, by simp only [evaluateLoop, hc]; exact hd, ?_⟩
        rw [hiff]
        have hpm : ¬MatchesPolicy re u r env act p := by
          intro hm
          have hm' : evaluateConditions re p.conditions u r env act = .ok true := hm
          rw [hc] at hm'
          simp at hm'
        constructor
        · rintro ⟨h1, h2⟩
          refine ⟨?_, ?_⟩
          · rintro ⟨q, hq, hqd, hqm⟩
            cases List.mem_cons.mp hq with
            | inl h => subst h; exact hpm hqm
            | inr h => exact h1 ⟨q, h, hqd, hqm⟩
          · cases h2 with
            | inl h => exact Or.inl h
            | inr h => obtain ⟨q, hq, hqe, hqm⟩ := h
                       exact Or.inr ⟨q, List.mem_cons_of_mem p hq, hqe, hqm⟩
        · rintro ⟨h1, h2⟩
          refine ⟨fun ⟨q, hq, hqd, hqm⟩ => h1 ⟨q, List.mem_cons_of_mem p hq, hqd, hqm⟩, ?_⟩
          cases h2 with
          | inl h => exact Or.inl h
          | inr h =>
            obtain ⟨q, hq, hqe, hqm⟩ := h
            cases List.mem_cons.mp hq with
            | inl heq => subst heq; exact absurd hqm hpm
            | inr hmem => exact Or.inr ⟨q, hmem, hqe, hqm⟩
      | true =>
        have hpm : MatchesPolicy re u r env act p := hc
        by_cases hp : p.effect = "deny"
        · refine ⟨⟨false, "Denied by policy: " ++ p.name, some p.id⟩,
            by simp only [evaluateLoop, hc, if_pos hp], ?_⟩
          constructor
          · intro hft; simp at hft
          · rintro ⟨h1, _⟩
            exact absurd ⟨p, List.mem_cons_self p rest, hp, hpm⟩ h1
        · have step : ∀ acc' : Option Policy, acc' ≠ none →
              evaluateLoop re u r env act (p :: rest) acc =
                evaluateLoop re u r env act rest acc' →
              ∃ d, evaluateLoop re u r env act (p :: rest) acc = .ok d ∧
                (d.allowed = true ↔
                  (¬∃ q ∈ p :: rest, q.effect = "deny" ∧ MatchesPolicy re u r env act q) ∧
                  (acc ≠ none ∨
                    ∃ q ∈ p :: rest, q.effect ≠ "deny" ∧ MatchesPolicy re u r env act q)) := by
            intro acc' hne heq
            obtain ⟨d, hd, hiff⟩ := ih acc' hokrest
            refine ⟨d, heq ▸ hd, ?_⟩
            rw [hiff]
            constructor
            · rintro ⟨h1, _⟩
              refine ⟨?_, Or.inr ⟨p, List.mem_cons_self p rest, hp, hpm⟩⟩
              rintro ⟨q, hq, hqd, hqm⟩
              cases List.mem_cons.mp hq with
              | inl h => subst h; exact hp hqd
              | inr h => exact h1 ⟨q, h, hqd, hqm⟩
            · rintro ⟨h1, _⟩
              exact ⟨fun ⟨q, hq, hqd, hqm⟩ =>
                h1 ⟨q, List.mem_cons_of_mem p hq, hqd, hqm⟩, Or.inl hne⟩
          cases acc with
          | none =>
            exact step (some p) (by simp) (by simp only [evaluateLoop, hc, if_neg hp])
          | some ap =>
            exact step (some ap) (by simp) (by simp only [evaluateLoop, hc, if_neg hp])

/-! ## Lemmas about the field-level loop -/

/-- Once the accumulator's effect is `mask`, a suffix whose matching policies
are all allow-effect leaves the accumulator untouched (the allow branch is
guarded by `result.effect !== MASK`). -/
theorem fieldLoop_mask_sticky (re : RegexEngine) (ctx : FieldContext) :
    ∀ (l : List FieldPolicy) (acc : FieldResult), acc.effect = "mask" →
      (∀ p ∈ l, evaluatePolicyConditions re p ctx = true → p.effect = "allow") →
      fieldLoop re ctx l acc = acc := by
  intro l
  induction l with
  | nil => intro acc _ _; rfl
  | cons p rest ih =>
    intro acc hacc hall
    by_cases hm : evaluatePolicyConditions re p ctx = true
    · have hpe : p.effect = "allow" := hall p (List.mem_cons_self p rest) hm
      have h1 : ¬p.effect = "deny" := by rw [hpe]; decide
      have h2 : ¬p.effect = "redact" := by rw [hpe]; decide
      have h3 : ¬p.effect = "mask" := by rw [hpe]; decide
      have hguard : (p.effect = "allow" && acc.effect != "mask") = false := by
        rw [hacc]; simp
      simp only [fieldLoop, hm, if_true, if_neg h1, if_neg h2, if_neg h3, hguard,
        if_false, Bool.false_eq_true]
      exact ih acc hacc (fun q hq => hall q (List.mem_cons_of_mem p hq))
    · simp only [fieldLoop, if_neg hm]
      exact ih acc hacc (fun q hq => hall q (List.mem_cons_of_mem p hq))

/-- Once the accumulator's effect is `mask`, the loop can never end in `allow`:
deny/redact terminate with their own effects, another mask keeps `mask`, and a
matching allow is blocked by the `result.effect !== MASK` guard. -/
theorem fieldLoop_no_allow (re : RegexEngine) (ctx : FieldContext) :
    ∀ (l : List FieldPolicy) (acc : FieldResult), acc.effect = "mask" →
      (fieldLoop re ctx l acc).effect ≠ "allow" := by
  intro l
  induction l with
  | nil => intro acc hacc; rw [fieldLoop, hacc]; decide
  | cons p rest ih =>
    intro acc hacc
    by_cases hm : evaluatePolicyConditions re p ctx = true
    · by_cases h1 : p.effect = "deny"
      · simp only [fieldLoop, hm, if_true, if_pos h1]; decide
      · by_cases h2 : p.effect = "redact"
        · simp only [fieldLoop, hm, if_true, if_neg h1, if_pos h2]; decide
        · by_cases h3 : p.effect = "mask"
          · simp only [fieldLoop, hm, if_true, if_neg h1, if_neg h2, if_pos h3]
            exact ih _ rfl
          · have hguard : (p.effect = "allow" && acc.effect != "mask") = false := by
              rw [hacc]; simp
            simp only [fieldLoop, hm, if_true, if_neg h1, if_neg h2, if_neg h3, hguard,
              if_false, Bool.false_eq_true]
            exact ih acc hacc
    · simp only [fieldLoop, if_neg hm]
      exact ih acc hacc

/-- If the scan reaches a matching mask policy `m` (every earlier matching
policy is allow- or mask-effect, so nothing terminated the loop), the final
effect is never `allow`, whatever follows `m` in the list. -/
theorem fieldLoop_mask_reached_no_allow (re : RegexEngine) (ctx : FieldContext)
    (m : FieldPolicy) (hme : m.effect = "mask")
    (hm : evaluatePolicyConditions re m ctx = true) :
    ∀ (l₁ l₂ : List FieldPolicy) (acc : FieldResult),
      (∀ p ∈ l₁, evaluatePolicyConditions re p ctx = true →
        p.effect = "allow" ∨ p.effect = "mask") →
      (fieldLoop re ctx (l₁ ++ m :: l₂) acc).effect ≠ "allow" := by
  intro l₁
  induction l₁ with
  | nil =>
    intro l₂ acc _
    have h1 : ¬m.effect = "deny" := by rw [hme]; decide
    have h2 : ¬m.effect = "redact" := by rw [hme]; decide
    simp only [List.nil_append, fieldLoop, hm, if_true, if_neg h1, if_neg h2, if_pos hme]
    exact fieldLoop_no_allow re ctx l₂ _ rfl
  | cons p rest ih =>
    intro l₂ acc hall
    have hrest : ∀ q ∈ rest, evaluatePolicyConditions re q ctx = true →
        q.effect = "allow" ∨ q.effect = "mask" :=
      fun q hq => hall q (List.mem_cons_of_mem p hq)
    by_cases hpm : evaluatePolicyConditions re p ctx = true
    · cases hall p (List.mem_cons_self p rest) hpm with
      | inl hpe =>
        have h1 : ¬p.effect = "deny" := by rw [hpe]; decide
        have h2 : ¬p.effect = "redact" := by rw [hpe]; decide
        have h3 : ¬p.effect = "mask" := by rw [hpe]; decide
        by_cases hguard : (p.effect = "allow" && acc.effect != "mask") = true
        · simp only [List.cons_append, fieldLoop, hpm, if_true, if_neg h1, if_neg h2,
            if_neg h3, hguard]
          exact ih l₂ _ hrest
        · simp only [List.cons_append, fieldLoop, hpm, if_true, if_neg h1, if_neg h2,
            if_neg h3, Bool.not_eq_true (p.effect = "allow" && acc.effect != "mask") ▸ hguard]
          have hg : (p.effect = "allow" && acc.effect != "mask") = false :=
            Bool.not_eq_true _ ▸ hguard
          simp only [hg, if_false, Bool.false_eq_true]
          exact ih l₂ acc hrest
      | inr hpe =>
        have h1 : ¬p.effect = "deny" := by rw [hpe]; decide
        have h2 : ¬p.effect = "redact" := by rw [hpe]; decide
        simp only [List.cons_append, fieldLoop, hpm, if_true, if_neg h1, if_neg h2,
          if_pos hpe]
        exact ih l₂ _ hrest
    · simp only [List.cons_append, fieldLoop, if_neg hpm]
      exact ih l₂ acc hrest

/-- If the scan reaches a matching mask policy `m` and every matching policy
after `m` is allow-effect, the loop returns exactly `m`'s mask result: the
*last* matching mask policy wins (mask assignment is unconditional). -/
theorem fieldLoop_last_mask (re : RegexEngine) (ctx : FieldContext)
    (m : FieldPolicy) (hme : m.effect = "mask")
    (hm : evaluatePolicyConditions re m ctx = true) :
    ∀ (l₁ l₂ : List FieldPolicy) (acc : FieldResult),
      (∀ p ∈ l₁, evaluatePolicyConditions re p ctx = true →
        p.effect = "allow" ∨ p.effect = "mask") →
      (∀ p ∈ l₂, evaluatePolicyConditions re p ctx = true → p.effect = "allow") →
      fieldLoop re ctx (l₁ ++ m :: l₂) acc =
        ⟨"mask", some m.id, m.mask_value, "Masked by policy: " ++ m.name⟩ := by
  intro l₁
  induction l₁ with
  | nil =>
    intro l₂ acc _ hall₂
    have h1 : ¬m.effect = "deny" := by rw [hme]; decide
    have h2 : ¬m.effect = "redact" := by rw [hme]; decide
    simp only [List.nil_append, fieldLoop, hm, if_true, if_neg h1, if_neg h2, if_pos hme]
    exact fieldLoop_mask_sticky re ctx l₂ _ rfl hall₂
  | cons p rest ih =>
    intro l₂ acc hall₁ hall₂
    have hrest : ∀ q ∈ rest, evaluatePolicyConditions re q ctx = true →
        q.effect = "allow" ∨ q.effect = "mask" :=
      fun q hq => hall₁ q (List.mem_cons_of_mem p hq)
    by_cases hpm : evaluatePolicyConditions re p ctx = true
    · cases hall₁ p (List.mem_cons_self p rest) hpm with
      | inl hpe =>
        have h1 : ¬p.effect = "deny" := by rw [hpe]; decide
        have h2 : ¬p.effect = "redact" := by rw [hpe]; decide
        have h3 : ¬p.effect = "mask" := by rw [hpe]; decide
        simp only [List.cons_append, fieldLoop, hpm, if_true, if_neg h1, if_neg h2, if_neg h3]
        by_cases hguard : (p.effect = "allow" && acc.effect != "mask") = true
        · simp only [hguard, if_true]
          exact ih l₂ _ hrest hall₂
        · have hg : (p.effect = "allow" && acc.effect != "mask") = false :=
            Bool.not_eq_true _ ▸ hguard
          simp only [hg, if_false, Bool.false_eq_true]
          exact ih l₂ acc hrest hall₂
      | inr hpe =>
        have h1 : ¬p.effect = "deny" := by rw [hpe]; decide
        have h2 : ¬p.effect = "redact" := by rw [hpe]; decide
        simp only [List.cons_append, fieldLoop, hpm, if_true, if_neg h1, if_neg h2, if_pos hpe]
        exact ih l₂ _ hrest hall₂
    · simp only [List.cons_append, fieldLoop, if_neg hpm]
      exact ih l₂ acc hrest hall₂

/-! ## Lemmas about the row filter -/

/-- The access log only ever receives keys that are schema fields: for a key
not in the field map, the log is left unchanged by the whole scan. -/
theorem filterRowGo_snd_unknown (fieldAccess : String → FieldResult)
    (fieldMap : Obj FieldRow) {k : String} (hk : objGet fieldMap k = none) :
    ∀ (row : List (String × CellValue)) (filtered : Obj CellValue) (accessLog : Obj String),
      objGet (filterRowGo fieldAccess fieldMap row filtered accessLog).2 k =
        objGet accessLog k := by
  intro row
  induction row with
  | nil => intro filtered accessLog; rfl
  | cons e rest ih =>
    intro filtered accessLog
    obtain ⟨fieldName, value⟩ := e
    cases hf : objGet fieldMap fieldName with
    | none => simp only [filterRowGo, hf]; exact ih _ _
    | some field =>
      have hne : fieldName ≠ k := by
        intro hc; rw [hc, hk] at hf; exact Option.noConfusion hf
      simp only [filterRowGo, hf]
      rw [ih _ _, objGet_objSet_ne _ _ (fun hc => hne hc.symm)]

/-- For a key that is not a schema field, the scan writes exactly the row's own
value for that key into the filtered object (keys of a JS object row are
unique). -/
theorem filterRowGo_fst_unknown (fieldAccess : String → FieldResult)
    (fieldMap : Obj FieldRow) {k : String} (hk : objGet fieldMap k = none) :
    ∀ (row : List (String × CellValue)) (filtered : Obj CellValue) (accessLog : Obj String),
      (row.map Prod.fst).Nodup →
      objGet (filterRowGo fieldAccess fieldMap row filtered accessLog).1 k =
        (objGet row k).or (objGet filtered k) := by
  intro row
  induction row with
  | nil => intro filtered accessLog _; simp [filterRowGo, objGet, Option.or]
  | cons e rest ih =>
    intro filtered accessLog hnd
    obtain ⟨fieldName, value⟩ := e
    have hnd' : (rest.map Prod.fst).Nodup := (List.nodup_cons.mp hnd).2
    have hnotin : fieldName ∉ rest.map Prod.fst := (List.nodup_cons.mp hnd).1
    by_cases hek : fieldName = k
    · subst hek
      have hrest : objGet rest fieldName = none := objGet_eq_none_of_not_mem hnotin
      cases hf : objGet fieldMap fieldName with
      | none =>
        simp only [filterRowGo, hf]
        rw [ih _ _ hnd', hrest, objGet_objSet_self]
        simp [objGet, Option.or]
      | some field =>
        rw [hf] at hk; exact Option.noConfusion hk
    · have hrow : objGet ((fieldName, value) :: rest) k = objGet rest k := by
        simp only [objGet, if_neg hek]
      cases hf : objGet fieldMap fieldName with
      | none =>
        simp only [filterRowGo, hf]
        rw [ih _ _ hnd', hrow, objGet_objSet_ne _ _ (fun hc => hek hc.symm)]
      | some field =>
        simp only [filterRowGo, hf]
        rw [ih _ _ hnd', hrow]
        by_cases h1 : (fieldAccess field.id).effect = "allow"
        · rw [if_pos h1, objGet_objSet_ne _ _ (fun hc => hek hc.symm)]
        · rw [if_neg h1]
          by_cases h2 : (fieldAccess field.id).effect = "mask"
          · rw [if_pos h2, objGet_objSet_ne _ _ (fun hc => hek hc.symm)]
          · rw [if_neg h2]
            by_cases h3 : (fieldAccess field.id).effect = "redact"
            · rw [if_pos h3, objGet_objSet_ne _ _ (fun hc => hek hc.symm)]
            · rw [if_neg h3]

/-! ## Claim theorems -/

/-- Claim C1 counterexample: the claim as frozen is false — an active policy
set with a matching deny (`pDeny`) and a matching allow (`pAllow`) may also
contain an active policy (`pThrow`, priority 90) whose `matches` pattern `"["`
is invalid and whose actual value resolves. The shown list is the only valid
result of either query (all priorities distinct), and scanning `pThrow` first
makes `new RegExp` raise, so `evaluate` and `checkAccess` both end in the
propagated exception (`.error ()`) instead of returning `Denied`. -/
theorem deny_overrides_counterexample :
    PriorityCreatedOrdering (activeRows [pThrow, pDeny, pAllow])
      [pThrow, pDeny, pAllow] ∧
    PriorityDescOrdering (activeRows [pThrow, pDeny, pAllow])
      [pThrow, pDeny, pAllow] ∧
    (pDeny ∈ activeRows [pThrow, pDeny, pAllow] ∧ pDeny.effect = "deny" ∧
      evaluateConditions reBad pDeny.conditions [] [] [] "read" = .ok true) ∧
    (pAllow ∈ activeRows [pThrow, pDeny, pAllow] ∧ pAllow.effect = "allow" ∧
      evaluateConditions reBad pAllow.conditions [] [] [] "read" = .ok true) ∧
    evaluate reBad "u1" "r1" "read" (some []) (some []) []
      [pThrow, pDeny, pAllow] = .error () ∧
    checkAccess reBad (some []) (some []) [] "read"
      [pThrow, pDeny, pAllow] = .error () := by
  refine ⟨⟨?_, ?_⟩, ⟨?_, ?_⟩, ⟨?_, ?_, ?_⟩, ⟨?_, ?_, ?_⟩, ?_, ?_⟩ <;> decide

/-- Claim C1 (amended): deny-overrides for resource decisions holds in every
exception-free run — for every stored active policy set (read through either
query's valid orderings) that contains at least one matching deny-effect policy
and at least one matching allow-effect policy, and in which no policy's
condition evaluation raises (no active policy pairs an invalid `matches`
pattern with a resolvable actual value), both `evaluate` and `checkAccess`
return a denial (`allowed = false`), regardless of the relative priorities of
the matching policies (no ordering constraint beyond the queries' own is
assumed). When some scanned policy does raise, the `SyntaxError` propagates and
no decision is returned at all (see the counterexample). -/
theorem deny_overrides_resource (re : RegexEngine) (userId resourceId act : String)
    (u r env : AttrBag) (table ord₁ ord₂ : List Policy)
    (hord₁ : PriorityCreatedOrdering (activeRows table) ord₁)
    (hord₂ : PriorityDescOrdering (activeRows table) ord₂)
    (hok : ∀ p ∈ activeRows table, NoThrow re u r env act p)
    (hdeny : ∃ p ∈ activeRows table, p.effect = "deny" ∧ MatchesPolicy re u r env act p)
    (_hallow : ∃ p ∈ activeRows table, p.effect = "allow" ∧ MatchesPolicy re u r env act p) :
    (∃ d logRow, evaluate re userId resourceId act (some u) (some r) env ord₁ =
      .ok (d, logRow) ∧ d.allowed = false) ∧
    (∃ c, checkAccess re (some u) (some r) env act ord₂ = .ok c ∧ c.allowed = false) := by
  constructor
  · have hok₁ : ∀ p ∈ ord₁, NoThrow re u r env act p :=
      fun p hp => hok p (hord₁.1.mem_iff.mp hp)
    have hdeny₁ : ∃ p ∈ ord₁, p.effect = "deny" ∧ MatchesPolicy re u r env act p :=
      (bex_congr_of_perm hord₁.1.symm _).mp hdeny
    obtain ⟨d, hd, hda⟩ := evaluateLoop_denied re u r env act ord₁ none hok₁ hdeny₁
    refine ⟨d, auditOf userId resourceId act d, ?_, hda⟩
    simp only [evaluate, hd, Except.map, logAndReturn]
  · have hok₂ : ∀ p ∈ ord₂, NoThrow re u r env act p :=
      fun p hp => hok p (hord₂.1.mem_iff.mp hp)
    have hdeny₂ : ∃ p ∈ ord₂, p.effect = "deny" ∧ MatchesPolicy re u r env act p :=
      (bex_congr_of_perm hord₂.1.symm _).mp hdeny
    obtain ⟨d, hd, hda⟩ := evaluateLoop_denied re u r env act ord₂ none hok₂ hdeny₂
    have hagree := loops_agree re u r env act ord₂ none
    rw [hd] at hagree
    obtain ⟨c, hc, hcs⟩ := map_ok_inv hagree.symm
    refine ⟨c, by simp only [checkAccess, hc], ?_⟩
    have : c.allowed = d.allowed := congrArg Prod.fst hcs
    rw [this, hda]

/-- Claim C1 witness for the amended statement: a concrete store with one
matching allow policy (priority 10) and one matching deny policy (priority 50),
no policy raising; both engines deny. -/
theorem deny_overrides_resource_witness :
    (∃ d logRow, evaluate re0 "u1" "r1" "read" (some []) (some []) []
      [pDeny, pAllow] = .ok (d, logRow) ∧ d.allowed = false) ∧
    (∃ c, checkAccess re0 (some []) (some []) [] "read" [pDeny, pAllow] =
      .ok c ∧ c.allowed = false) :=
  deny_overrides_resource re0 "u1" "r1" "read" [] [] [] [pAllow, pDeny]
    [pDeny, pAllow] [pDeny, pAllow]
    (by constructor <;> decide) (by constructor <;> decide)
    (by decide) (by decide) (by decide)

/-- Claim C2: default deny — for a known subject and known resource with zero
matching active policies, `evaluate` returns `allowed = false`, cites no policy
and reports the no-applicable-policy reason (and logs the same), and
`checkAccess` does likewise with its own wording of that reason. -/
theorem default_deny_no_applicable (re : RegexEngine) (userId resourceId act : String)
    (u r env : AttrBag) (policies : List Policy)
    (h : ∀ p ∈ policies, evaluateConditions re p.conditions u r env act = .ok false) :
    evaluate re userId resourceId act (some u) (some r) env policies =
      .ok (⟨false, "No applicable policy found - default deny", none⟩,
        ⟨userId, resourceId, act, "deny", none, "No applicable policy found - default deny"⟩) ∧
    checkAccess re (some u) (some r) env act policies =
      .ok ⟨false, "No applicable policy - default deny", none⟩ := by
  constructor
  · simp only [evaluate]
    rw [evaluateLoop_unmatched re u r env act policies h]
    rfl
  · simp only [checkAccess]
    exact checkAccessLoop_unmatched re u r env act policies h

/-- Claim C2 witness: a store with one active policy whose (empty) condition
list never matches. -/
theorem default_deny_no_applicable_witness :
    evaluate re0 "u1" "r1" "read" (some []) (some []) [] [pEmpty] =
      .ok (⟨false, "No applicable policy found - default deny", none⟩,
        ⟨"u1", "r1", "read", "deny", none, "No applicable policy found - default deny"⟩) ∧
    checkAccess re0 (some []) (some []) [] "read" [pEmpty] =
      .ok ⟨false, "No applicable policy - default deny", none⟩ :=
  default_deny_no_applicable re0 "u1" "r1" "read" [] [] [] [pEmpty] (by decide)

/-- Claim C3 counterexample: the resource-level condition evaluator does NOT
yield false on an invalid `matches` pattern — `PolicyEngine.operators.matches`
has no try/catch, so `new RegExp("[", "i")` raises and the exception escapes
condition evaluation (modelled as `.error ()`), which is not the value
`.ok false` the claim requires. -/
theorem matches_invalid_counterexample :
    evaluateConditions reBad [condBadResource] [] [] [] "read" = .error () ∧
    (Except.error () : Except Unit Bool) ≠ .ok false ∧
    evaluateCondition reBad condBadField ctx0 = false := by
  refine ⟨?_, ?_, ?_⟩ <;> decide

/-- Claim C3 (amended): an invalid `matches` pattern yields false (and never an
exception) in the field-level condition evaluator only; in the resource-level
evaluator the `SyntaxError` raised by `new RegExp` propagates out of condition
evaluation whenever the condition's actual value resolves (when it does not,
the condition is false before the pattern is ever compiled). -/
theorem matches_invalid_amended (re : RegexEngine) (cF : FieldCondition)
    (ctx : FieldContext) (cR : Condition) (u r env : AttrBag) (act a : String)
    (hF1 : cF.operator = "matches") (hF2 : re cF.value = none)
    (hR1 : cR.operator = "matches") (hR2 : re cR.attribute_value = none)
    (hR3 : resolveResourceActual cR u r env act = some a) :
    evaluateCondition re cF ctx = false ∧
    evalResourceCondition re cR u r env act = .error () := by
  constructor
  · unfold evaluateCondition
    cases resolveFieldActual cF ctx with
    | none => rfl
    | some v =>
      rw [hF1]
      simp only [String.reduceEq, reduceIte, hF2]
  · unfold evalResourceCondition
    rw [hR3]
    unfold applyOperator
    rw [hR1]
    simp only [String.reduceEq, reduceIte, hR2]

/-- Claim C3 witness for the amended statement, at the invalid pattern `"["`. -/
theorem matches_invalid_amended_witness :
    evaluateCondition reBad condBadField ctx0 = false ∧
    evalResourceCondition reBad condBadResource [] [] [] "read" = .error () :=
  matches_invalid_amended reBad condBadField ctx0 condBadResource [] [] [] "read" "read"
    rfl rfl rfl rfl rfl

/-- Claim C4 counterexample, two parts over stores read by both queries.
Part 1 — cited policy: with two matching equal-priority, equal-`created_at`
allow policies, `[Q1, Q2]` is a valid result of `evaluate`'s query
(`ORDER BY priority DESC, created_at ASC`) and `[Q2, Q1]` a valid result of
`checkAccess`'s query (`ORDER BY priority DESC`), yet `evaluate` cites `q1`
while `checkAccess` cites `q2`.
Part 2 — decision itself: with a raising policy (`pThrowTie`) tied with the
matching deny `pDeny` on both priority and `created_at`, `[pThrowTie, pDeny]`
is a valid result of `evaluate`'s query and `[pDeny, pThrowTie]` one of
`checkAccess`'s; over that same stored data `evaluate` throws (`.error ()`)
while `checkAccess` returns Denied — so without exception-freedom even the
returned flag (or the existence of a decision) can differ. -/
theorem evaluate_checkAccess_counterexample :
    (PriorityCreatedOrdering (activeRows [Q1, Q2]) [Q1, Q2] ∧
     PriorityDescOrdering (activeRows [Q1, Q2]) [Q2, Q1] ∧
     (evaluate re0 "u1" "r1" "read" (some []) (some []) [] [Q1, Q2]).map
       (fun x => decisionSummary x.1) = .ok (true, some "q1") ∧
     (checkAccess re0 (some []) (some []) [] "read" [Q2, Q1]).map checkSummary =
       .ok (true, some "q2") ∧
     (some "q1" : Option String) ≠ some "q2") ∧
    (PriorityCreatedOrdering (activeRows [pThrowTie, pDeny]) [pThrowTie, pDeny] ∧
     PriorityDescOrdering (activeRows [pThrowTie, pDeny]) [pDeny, pThrowTie] ∧
     evaluate reBad "u1" "r1" "read" (some []) (some []) []
       [pThrowTie, pDeny] = .error () ∧
     (checkAccess reBad (some []) (some []) [] "read" [pDeny, pThrowTie]).map
       checkSummary = .ok (false, some "p-deny")) := by
  refine ⟨⟨⟨?_, ?_⟩, ⟨?_, ?_⟩, ?_, ?_, ?_⟩, ⟨⟨?_, ?_⟩, ⟨?_, ?_⟩, ?_, ?_⟩⟩ <;> decide

/-- Claim C4 (amended): over the same ordered policy list, `evaluate` and
`checkAccess` always compute the same allowed flag and cite the same policy
(their loops differ only in result shape, reason wording and the audit row);
and over the same stored table — even when the two queries order
equal-priority policies differently — the allowed flag still agrees *provided
no condition evaluation raises*. That proviso is necessary: without it one call
can throw while the other returns a denial, and the cited policy can differ on
equal-priority ties, as the two parts of the counterexample show. -/
theorem evaluate_checkAccess_amended (re : RegexEngine) (userId resourceId act : String)
    (uA rA : Option AttrBag) (u r env : AttrBag) (policies : List Policy)
    (table o₁ o₂ : List Policy)
    (hord₁ : PriorityCreatedOrdering (activeRows table) o₁)
    (hord₂ : PriorityDescOrdering (activeRows table) o₂)
    (hok : ∀ p ∈ activeRows table, NoThrow re u r env act p) :
    (evaluate re userId resourceId act uA rA env policies).map
      (fun x => decisionSummary x.1) =
      (checkAccess re uA rA env act policies).map checkSummary ∧
    (evaluate re userId resourceId act (some u) (some r) env o₁).map
      (fun x => x.1.allowed) =
      (checkAccess re (some u) (some r) env act o₂).map (fun c => c.allowed) := by
  constructor
  · cases uA with
    | none => rfl
    | some u' =>
      cases rA with
      | none => rfl
      | some r' =>
        simp only [evaluate, checkAccess]
        have hagree := loops_agree re u' r' env act policies none
        cases hl : evaluateLoop re u' r' env act policies none with
        | error e =>
          rw [hl] at hagree
          rw [map_error_inv hagree.symm]
          rfl
        | ok d =>
          rw [hl] at hagree
          obtain ⟨c, hc, hcs⟩ := map_ok_inv hagree.symm
          rw [hc]
          simp only [Except.map, logAndReturn]
          rw [hcs]
  · have hok₁ : ∀ p ∈ o₁, NoThrow re u r env act p :=
      fun p hp => hok p (hord₁.1.mem_iff.mp hp)
    have hok₂ : ∀ p ∈ o₂, NoThrow re u r env act p :=
      fun p hp => hok p (hord₂.1.mem_iff.mp hp)
    obtain ⟨d₁, hd₁, hiff₁⟩ := evaluateLoop_flag re u r env act o₁ none hok₁
    obtain ⟨d₂, hd₂, hiff₂⟩ := evaluateLoop_flag re u r env act o₂ none hok₂
    have hperm : o₁.Perm o₂ := hord₁.1.trans hord₂.1.symm
    have hflag : d₁.allowed = d₂.allowed := by
      have h12 : (d₁.allowed = true) ↔ (d₂.allowed = true) := by
        rw [hiff₁, hiff₂]
        exact and_congr
          (not_congr (bex_congr_of_perm hperm _))
          (or_congr Iff.rfl (bex_congr_of_perm hperm _))
      cases hb₁ : d₁.allowed <;> cases hb₂ : d₂.allowed <;> simp_all
    have hagree := loops_agree re u r env act o₂ none
    rw [hd₂] at hagree
    obtain ⟨c, hc, hcs⟩ := map_ok_inv hagree.symm
    simp only [evaluate, checkAccess, hd₁, hc, Except.map, logAndReturn]
    have : c.allowed = d₂.allowed := congrArg Prod.fst hcs
    rw [this, hflag]

/-- Claim C4 witness for the amended statement, on the two-allow-policy store of
the counterexample. -/
theorem evaluate_checkAccess_amended_witness :
    (evaluate re0 "u1" "r1" "read" (some []) (some []) [] [Q1, Q2]).map
      (fun x => decisionSummary x.1) =
      (checkAccess re0 (some []) (some []) [] "read" [Q1, Q2]).map checkSummary ∧
    (evaluate re0 "u1" "r1" "read" (some []) (some []) [] [Q1, Q2]).map
      (fun x => x.1.allowed) =
      (checkAccess re0 (some []) (some []) [] "read" [Q2, Q1]).map
        (fun c => c.allowed) :=
  evaluate_checkAccess_amended re0 "u1" "r1" "read" (some []) (some []) [] [] []
    [Q1, Q2] [Q1, Q2] [Q1, Q2] [Q2, Q1]
    (by constructor <;> decide) (by constructor <;> decide) (by decide)

/-- Claim C5 counterexample: two matching mask policies, `M1` (priority 50,
mask text `MASK-A`) before `M2` (priority 10, mask text `MASK-B`) in a valid
priority-descending listing. The mask branch assigns the accumulator
*unconditionally*, so the returned mask value and cited policy are those of the
lower-priority `M2` — not, as the claim states, of the highest-priority
matching mask policy `M1`. -/
theorem mask_overwrite_counterexample :
    FieldPolicyOrdering [M1, M2] "document" [M1, M2] ∧
    M2.priority < M1.priority ∧
    evaluateFieldAccess re0 [] (some res1) (some fld1) [] [] [] "read" [M1, M2] =
      ⟨"mask", some "fp-m2", some "MASK-B", "Masked by policy: M2"⟩ ∧
    (some "fp-m2" : Option String) ≠ some M1.id ∧
    (some "MASK-B" : Option String) ≠ M1.mask_value := by
  refine ⟨⟨?_, ?_⟩, ?_, ?_, ?_, ?_⟩ <;> decide

/-- Claim C5 (amended): a matching mask policy overwrites the accumulator
unconditionally; consequently, when the scan reaches a matching mask policy `m`
(everything matching before it is allow- or mask-effect) and every matching
policy after `m` is allow-effect, the returned maskValue and cited policy are
those of `m` — the *last*-scanned (lowest-priority) matching mask policy, not
the highest-priority one. -/
theorem last_mask_wins (re : RegexEngine) (uRows resRows fRows envA : AttrBag)
    (r : ResourceRow) (f : FieldRow) (act : String)
    (l₁ l₂ : List FieldPolicy) (m : FieldPolicy)
    (hme : m.effect = "mask")
    (hm : evaluatePolicyConditions re m (contextOf uRows r f resRows fRows envA act) = true)
    (h₁ : ∀ p ∈ l₁,
      evaluatePolicyConditions re p (contextOf uRows r f resRows fRows envA act) = true →
      p.effect = "allow" ∨ p.effect = "mask")
    (h₂ : ∀ p ∈ l₂,
      evaluatePolicyConditions re p (contextOf uRows r f resRows fRows envA act) = true →
      p.effect = "allow") :
    evaluateFieldAccess re uRows (some r) (some f) resRows fRows envA act (l₁ ++ m :: l₂) =
      ⟨"mask", some m.id, m.mask_value, "Masked by policy: " ++ m.name⟩ := by
  simp only [evaluateFieldAccess]
  exact fieldLoop_last_mask re _ m hme hm l₁ l₂ initialFieldResult h₁ h₂

/-- Claim C5 witness for the amended statement: with `[M1, M2]` the cited mask
policy is `M2`, the last matching mask policy. -/
theorem last_mask_wins_witness :
    evaluateFieldAccess re0 [] (some res1) (some fld1) [] [] [] "read" ([M1] ++ M2 :: []) =
      ⟨"mask", some M2.id, M2.mask_value, "Masked by policy: " ++ M2.name⟩ :=
  last_mask_wins re0 [] [] [] [] res1 fld1 "read" [M1] [] M2
    rfl (by decide) (by decide) (by decide)

/-- Claim C6: an already-recorded mask is never downgraded to allow — whenever
the field scan reaches a matching mask-effect policy (each earlier matching
policy being allow- or mask-effect, so the loop has not returned yet), the
effect returned by `evaluateFieldAccess` is never `allow`, whatever matching
allow policies appear later in the scan. -/
theorem mask_never_downgraded (re : RegexEngine) (uRows resRows fRows envA : AttrBag)
    (r : ResourceRow) (f : FieldRow) (act : String)
    (l₁ l₂ : List FieldPolicy) (m : FieldPolicy)
    (hme : m.effect = "mask")
    (hm : evaluatePolicyConditions re m (contextOf uRows r f resRows fRows envA act) = true)
    (h₁ : ∀ p ∈ l₁,
      evaluatePolicyConditions re p (contextOf uRows r f resRows fRows envA act) = true →
      p.effect = "allow" ∨ p.effect = "mask") :
    (evaluateFieldAccess re uRows (some r) (some f) resRows fRows envA act
      (l₁ ++ m :: l₂)).effect ≠ "allow" := by
  simp only [evaluateFieldAccess]
  exact fieldLoop_mask_reached_no_allow re _ m hme hm l₁ l₂ initialFieldResult h₁

/-- Claim C6 witness: mask policy `M1` followed by a matching allow policy
`A1`; the final effect is not allow. -/
theorem mask_never_downgraded_witness :
    (evaluateFieldAccess re0 [] (some res1) (some fld1) [] [] [] "read"
      ([] ++ M1 :: [A1])).effect ≠ "allow" :=
  mask_never_downgraded re0 [] [] [] [] res1 fld1 "read" [] [A1] M1
    rfl (by decide) (by decide)

/-- Claim C7 counterexample: the non-logging path's query
(`ORDER BY priority DESC`, no tiebreaker) admits two different valid orderings
of the same stored active policies (equal priority), and `checkAccess` cites a
different policy for each — equal-priority policies are not kept in a stable
deterministic order in every listing path. -/
theorem policy_ordering_counterexample :
    PriorityDescOrdering (activeRows [Q1, Q2]) [Q1, Q2] ∧
    PriorityDescOrdering (activeRows [Q1, Q2]) [Q2, Q1] ∧
    (checkAccess re0 (some []) (some []) [] "read" [Q1, Q2]).map checkSummary =
      .ok (true, some "q1") ∧
    (checkAccess re0 (some []) (some []) [] "read" [Q2, Q1]).map checkSummary =
      .ok (true, some "q2") ∧
    ((true, some "q1") : Bool × Option String) ≠ (true, some "q2") := by
  refine ⟨⟨?_, ?_⟩, ⟨?_, ?_⟩, ?_, ?_, ?_⟩ <;> decide

/-- Claim C7 (amended): only the logging resource evaluation's query orders by
priority descending with a `created_at` tiebreaker, and that ordering is
deterministic whenever no two active policies share both priority and
`created_at`: any two valid results of that query are the same list, so two
logged evaluations over the same stored data cite the same policy. (The
non-logging evaluation and the field-policy listing sort by priority only; see
the counterexample.) -/
theorem logging_query_deterministic (table o₁ o₂ : List Policy)
    (h₁ : PriorityCreatedOrdering (activeRows table) o₁)
    (h₂ : PriorityCreatedOrdering (activeRows table) o₂)
    (hsep : ∀ p ∈ activeRows table, ∀ q ∈ activeRows table,
      p.priority = q.priority → p.created_at = q.created_at → p = q)
    (re : RegexEngine) (userId resourceId act : String)
    (uA rA : Option AttrBag) (env : AttrBag) :
    o₁ = o₂ ∧
    evaluate re userId resourceId act uA rA env o₁ =
      evaluate re userId resourceId act uA rA env o₂ := by
  have heq : o₁ = o₂ := by
    refine sorted_perm_eq (h₁.1.trans h₂.1.symm) h₁.2 h₂.2 ?_
    intro a ha b hb hab hba
    have ha' : a ∈ activeRows table := h₁.1.mem_iff.mp ha
    have hb' : b ∈ activeRows table := h₁.1.mem_iff.mp hb
    cases hab with
    | inl h =>
      cases hba with
      | inl h' => exact absurd h' (lt_asymm h)
      | inr h' => exact absurd (h'.1 ▸ h) (lt_irrefl _)
    | inr h =>
      cases hba with
      | inl h' => exact absurd (h.1 ▸ h') (lt_irrefl _)
      | inr h' => exact hsep a ha' b hb' h'.1 (le_antisymm h.2 h'.2)
  exact ⟨heq, by rw [heq]⟩

/-- Claim C7 witness for the amended statement: with distinct priorities the
logging query's output is forced. -/
theorem logging_query_deterministic_witness :
    ([pDeny, pAllow] : List Policy) = [pDeny, pAllow] ∧
    evaluate re0 "u1" "r1" "read" (some []) (some []) [] [pDeny, pAllow] =
      evaluate re0 "u1" "r1" "read" (some []) (some []) [] [pDeny, pAllow] :=
  logging_query_deterministic [pAllow, pDeny] [pDeny, pAllow] [pDeny, pAllow]
    (by constructor <;> decide) (by constructor <;> decide) (by decide)
    re0 "u1" "r1" "read" (some []) (some []) []

/-- Claim C8: SSN masking — with no policy-supplied mask text, a value of field
type `ssn` is masked to `***-**-` followed by its last 4 characters when it has
at least 4 characters, and to the constant `***-**-****` otherwise; in
particular `applyMask('123-45-6789', 'ssn')` is `***-**-6789`. -/
theorem ssn_mask_spec :
    (∀ s : String, applyMask (.str s) "ssn" none =
      .str (if s.length ≥ 4 then "***-**-" ++ sliceLast s 4 else "***-**-****")) ∧
    applyMask (.str "123-45-6789") "ssn" none = .str "***-**-6789" := by
  exact ⟨fun s => rfl, by decide⟩

/-- Claim C9: the two engines disagree on an empty condition list — a
resource-level policy with no conditions never matches
(`evaluateConditions` is false on the empty list for every context), while a
field-level policy with no conditions and no `field_pattern` matches every
context (`evaluatePolicyConditions` is true). -/
theorem empty_condition_divergence (re : RegexEngine) (u r env : AttrBag) (act : String)
    (pr : Policy) (fp : FieldPolicy) (ctx : FieldContext)
    (hpr : pr.conditions = []) (hfp : fp.conditions = [])
    (_hpat : fp.field_pattern = none) :
    evaluateConditions re pr.conditions u r env act = .ok false ∧
    evaluatePolicyConditions re fp ctx = true := by
  constructor
  · rw [hpr]; rfl
  · simp only [evaluatePolicyConditions, hfp]; rfl

/-- Claim C9 witness: a condition-free resource policy never matches while a
condition-free field policy always does. -/
theorem empty_condition_divergence_witness :
    evaluateConditions re0 pEmpty.conditions [] [] [] "read" = .ok false ∧
    evaluatePolicyConditions re0 fpEmpty ctx0 = true :=
  empty_condition_divergence re0 [] [] [] "read" pEmpty fpEmpty ctx0 rfl rfl rfl

/-- Claim C10 counterexample: the key `_accessControl` is not a schema field,
yet it is NOT copied into the filtered output unchanged — `filterSingleRow`
ends with `filtered._accessControl = accessLog`, which overwrites the
passed-through value with the access-control map. -/
theorem passthrough_counterexample :
    objGet ([] : Obj FieldRow) "_accessControl" = none ∧
    objGet (filterSingleRow (fun _ => initialFieldResult) []
      [("_accessControl", CellValue.str "secret")]).1 "_accessControl" =
      some (CellValue.accessMap []) ∧
    some (CellValue.accessMap []) ≠ some (CellValue.str "secret") := by
  refine ⟨?_, ?_, ?_⟩ <;> decide

/-- Claim C10 (amended): unknown-field passthrough holds for every key other
than the reserved `_accessControl` metadata key — for a row whose keys are
unique (as JS object keys are), a key with no entry in the resource's field map
is copied into the filtered output unchanged and gets no entry in the per-field
access-control map, independently of the field-access results; the one
exception is `_accessControl`, which the filter overwrites with the
access-control map (see the counterexample). -/
theorem unknown_field_passthrough (fieldAccess : String → FieldResult)
    (fieldMap : Obj FieldRow) (row : List (String × CellValue)) (k : String)
    (hk : k ≠ "_accessControl") (hm : objGet fieldMap k = none)
    (hnd : (row.map Prod.fst).Nodup) :
    objGet (filterSingleRow fieldAccess fieldMap row).1 k = objGet row k ∧
    objGet (filterSingleRow fieldAccess fieldMap row).2 k = none := by
  constructor
  · simp only [filterSingleRow]
    rw [objGet_objSet_ne _ _ hk,
      filterRowGo_fst_unknown fieldAccess fieldMap hm row [] [] hnd]
    cases objGet row k <;> rfl
  · simp only [filterSingleRow]
    exact filterRowGo_snd_unknown fieldAccess fieldMap hm row [] []

/-- Claim C10 witness for the amended statement: the non-schema key `name`
passes through a row unchanged and is absent from the access log, while the
schema key `ssn` is processed. -/
theorem unknown_field_passthrough_witness :
    objGet (filterSingleRow (fun _ => initialFieldResult) [("ssn", fld1)]
      [("name", CellValue.str "Bob"), ("ssn", CellValue.str "123-45-6789")]).1 "name" =
      objGet [("name", CellValue.str "Bob"), ("ssn", CellValue.str "123-45-6789")] "name" ∧
    objGet (filterSingleRow (fun _ => initialFieldResult) [("ssn", fld1)]
      [("name", CellValue.str "Bob"), ("ssn", CellValue.str "123-45-6789")]).2 "name" =
      none :=
  unknown_field_passthrough (fun _ => initialFieldResult) [("ssn", fld1)]
    [("name", CellValue.str "Bob"), ("ssn", CellValue.str "123-45-6789")] "name"
    (by decide) (by decide) (by decide)

end DocSec
